import Mathlib

/-!
Verification of the Signature Extraction & Placement Engine of the PDFsig
repository (an Angular PDF-signing application, `app.component` plus the
automatic background-removal routine).

The TypeScript source is shallowly embedded below:

* floating-point numbers are modelled as exact rationals (`ℚ`); every
  comparison the code performs on a square root of an integer is modelled by
  the equivalent comparison on the squared integer quantity, which is exact;
* `ImageData` buffers are modelled as `PixelBuffer` (flat RGBA byte list);
* the Angular component's signals that the claims concern are gathered into
  `AppState`, and each event handler becomes one constructor of `Op`
  interpreted by `step`.
-/

/-! ## Coordinate transformation (applyAndDownload, part_000 lines 437-454) -/

/-- A rectangle, with `x`/`y` the top-left corner in render-pixel space
(origin top-left) or the bottom-left corner in document point space
(origin bottom-left). -/
structure Rect where
  x : ℚ
  y : ℚ
  width : ℚ
  height : ℚ
deriving DecidableEq

/-- The per-signature coordinate conversion performed in `applyAndDownload`:
first the on-screen position is scaled by `scaleFactor`
(= viewport.width / canvas.offsetWidth), then divided by the fixed render
scale constant (`this.pdfRenderScale`), and the y axis is flipped using the
page height in points. -/
def toDocumentRect (r : Rect) (scaleFactor renderScaleConstant pageHeightPoints : ℚ) : Rect :=
  let canvasX := r.x * scaleFactor
  let canvasY := r.y * scaleFactor
  let canvasWidth := r.width * scaleFactor
  let canvasHeight := r.height * scaleFactor
  let pointX := canvasX / renderScaleConstant
  let pointWidth := canvasWidth / renderScaleConstant
  let pointHeight := canvasHeight / renderScaleConstant
  let pointY := pageHeightPoints - (canvasY / renderScaleConstant) - pointHeight
  { x := pointX, y := pointY, width := pointWidth, height := pointHeight }

/-- The fixed render scale: `private readonly pdfRenderScale = 1.5`. -/
def pdfRenderScale : ℚ := 3 / 2

/-- Claim C1: the export conversion scales by the page scale factor, divides
by the render-scale constant and flips the y axis, and the concrete rect
(100, 50, 120, 40) with constant 1.5, scale factor 1 and page height 792
maps to (200/3, 732, 80, 80/3), i.e. (66.67, 732, 80, 26.67) within
floating-point tolerance. -/
theorem toDocumentRect_correct :
    (∀ (r : Rect) (sf c H : ℚ),
      toDocumentRect r sf c H =
        { x := r.x * sf / c,
          y := H - r.y * sf / c - r.height * sf / c,
          width := r.width * sf / c,
          height := r.height * sf / c }) ∧
    toDocumentRect ⟨100, 50, 120, 40⟩ 1 pdfRenderScale 792 =
      { x := 200 / 3, y := 732, width := 80, height := 80 / 3 } ∧
    |(200 : ℚ) / 3 - 6667 / 100| < 1 / 100 ∧
    |(80 : ℚ) / 3 - 2667 / 100| < 1 / 100 := by
  refine ⟨fun r sf c H => rfl, ?_, by rw [abs_lt]; norm_num, by rw [abs_lt]; norm_num⟩
  simp only [toDocumentRect, pdfRenderScale, Rect.mk.injEq]
  norm_num

/-! ## Pixel buffers and the bounding-box trim (processSignatureImage) -/

/-- An `ImageData`-style raster: flat row-major RGBA byte list of length
`width * height * 4`.  Out-of-range reads default to 0, mirroring the fact
that the code only indexes in range. -/
structure PixelBuffer where
  width : Nat
  height : Nat
  data : List Nat
deriving DecidableEq

/-- The alpha byte of the pixel at column `x`, row `y`:
`data[(y * width + x) * 4 + 3]`. -/
def alphaAt (buf : PixelBuffer) (x y : Nat) : Nat :=
  buf.data.getD ((y * buf.width + x) * 4 + 3) 0

/-- The running bounding box of `processSignatureImage`, initialised to
`minX = width, minY = height, maxX = -1, maxY = -1`. -/
structure ScanBox where
  minX : Int
  minY : Int
  maxX : Int
  maxY : Int
deriving DecidableEq

def scanInit (buf : PixelBuffer) : ScanBox :=
  ⟨buf.width, buf.height, -1, -1⟩

/-- Loop body of the double loop in `processSignatureImage`; the coordinate
pair is `(y, x)` following the loop nesting (y outer, x inner). -/
def scanStep (buf : PixelBuffer) (acc : ScanBox) (p : Nat × Nat) : ScanBox :=
  if 0 < alphaAt buf p.2 p.1 then
    ⟨min acc.minX p.2, min acc.minY p.1, max acc.maxX p.2, max acc.maxY p.1⟩
  else acc

/-- All `(y, x)` coordinate pairs in the loop order of the double loop. -/
def pixelCoords (buf : PixelBuffer) : List (Nat × Nat) :=
  (List.range buf.height).flatMap fun y => (List.range buf.width).map fun x => (y, x)

def scanBoundingBox (buf : PixelBuffer) : ScanBox :=
  (pixelCoords buf).foldl (scanStep buf) (scanInit buf)

/-- The dimensions resolved by `processSignatureImage`: `(0, 0)` when no
pixel has positive alpha (`maxX === -1`), otherwise the trimmed bounding-box
dimensions.  (The promise also carries a PNG data URL of the copied
sub-rectangle, produced by the canvas API; only the dimensions are modelled.) -/
structure ProcessedImage where
  width : Int
  height : Int
deriving DecidableEq

def processSignatureImage (buf : PixelBuffer) : ProcessedImage :=
  let box := scanBoundingBox buf
  if box.maxX = -1 then ⟨0, 0⟩
  else ⟨box.maxX - box.minX + 1, box.maxY - box.minY + 1⟩

/-- `finalizeSignature`'s `newAspectRatio = processed.width / processed.height`. -/
def newAspectRatio (p : ProcessedImage) : ℚ :=
  (p.width : ℚ) / (p.height : ℚ)

theorem mem_pixelCoords (buf : PixelBuffer) (p : Nat × Nat) :
    p ∈ pixelCoords buf ↔ p.1 < buf.height ∧ p.2 < buf.width := by
  obtain ⟨y, x⟩ := p
  simp only [pixelCoords, List.mem_flatMap, List.mem_map, List.mem_range]
  constructor
  · rintro ⟨y', hy', x', hx', h⟩
    injection h with h1 h2
    subst h1; subst h2
    exact ⟨hy', hx'⟩
  · rintro ⟨hy, hx⟩
    exact ⟨y, hy, x, hx, rfl⟩

/-- Over any coordinate list, the scan fold only shrinks `minX`/`minY` and
only grows `maxX`/`maxY`. -/
theorem scan_foldl_le_init (buf : PixelBuffer) :
    ∀ (L : List (Nat × Nat)) (acc : ScanBox),
      (L.foldl (scanStep buf) acc).minX ≤ acc.minX ∧
      (L.foldl (scanStep buf) acc).minY ≤ acc.minY ∧
      acc.maxX ≤ (L.foldl (scanStep buf) acc).maxX ∧
      acc.maxY ≤ (L.foldl (scanStep buf) acc).maxY := by
  intro L
  induction L with
  | nil => exact fun acc => ⟨le_refl _, le_refl _, le_refl _, le_refl _⟩
  | cons p L ih =>
    intro acc
    obtain ⟨h1, h2, h3, h4⟩ := ih (scanStep buf acc p)
    simp only [List.foldl_cons]
    unfold scanStep at *
    by_cases hp : 0 < alphaAt buf p.2 p.1 <;> simp only [hp, if_true, if_false, ite_true,
      ite_false] at h1 h2 h3 h4 ⊢
    · exact ⟨le_trans h1 (min_le_left _ _), le_trans h2 (min_le_left _ _),
        le_trans (le_max_left _ _) h3, le_trans (le_max_left _ _) h4⟩
    · exact ⟨h1, h2, h3, h4⟩

/-- Every pixel of the scanned list with positive alpha ends up inside the
final bounding box. -/
theorem scan_foldl_bounds (buf : PixelBuffer) :
    ∀ (L : List (Nat × Nat)) (acc : ScanBox) (p : Nat × Nat), p ∈ L →
      0 < alphaAt buf p.2 p.1 →
      (L.foldl (scanStep buf) acc).minX ≤ (p.2 : Int) ∧
      (L.foldl (scanStep buf) acc).minY ≤ (p.1 : Int) ∧
      (p.2 : Int) ≤ (L.foldl (scanStep buf) acc).maxX ∧
      (p.1 : Int) ≤ (L.foldl (scanStep buf) acc).maxY := by
  intro L
  induction L with
  | nil => intro acc p hp; exact absurd hp (List.not_mem_nil p)
  | cons q L ih =>
    intro acc p hp ha
    simp only [List.foldl_cons]
    rcases List.mem_cons.mp hp with rfl | hmem
    · -- the pixel is the head: it enters the accumulator, which the rest of
      -- the fold never undoes
      obtain ⟨h1, h2, h3, h4⟩ := scan_foldl_le_init buf L (scanStep buf acc p)
      unfold scanStep at h1 h2 h3 h4 ⊢
      simp only [ha, if_true, ite_true] at h1 h2 h3 h4 ⊢
      exact ⟨le_trans h1 (min_le_right _ _), le_trans h2 (min_le_right _ _),
        le_trans (le_max_right _ _) h3, le_trans (le_max_right _ _) h4⟩
    · exact ih (scanStep buf acc q) p hmem ha

/-- Each final bound is either still the initial value or is attained by a
scanned pixel with positive alpha. -/
theorem scan_foldl_attained (buf : PixelBuffer) :
    ∀ (L : List (Nat × Nat)) (acc : ScanBox),
      ((L.foldl (scanStep buf) acc).minX = acc.minX ∨
        ∃ p ∈ L, 0 < alphaAt buf p.2 p.1 ∧ (L.foldl (scanStep buf) acc).minX = (p.2 : Int)) ∧
      ((L.foldl (scanStep buf) acc).minY = acc.minY ∨
        ∃ p ∈ L, 0 < alphaAt buf p.2 p.1 ∧ (L.foldl (scanStep buf) acc).minY = (p.1 : Int)) ∧
      ((L.foldl (scanStep buf) acc).maxX = acc.maxX ∨
        ∃ p ∈ L, 0 < alphaAt buf p.2 p.1 ∧ (L.foldl (scanStep buf) acc).maxX = (p.2 : Int)) ∧
      ((L.foldl (scanStep buf) acc).maxY = acc.maxY ∨
        ∃ p ∈ L, 0 < alphaAt buf p.2 p.1 ∧ (L.foldl (scanStep buf) acc).maxY = (p.1 : Int)) := by
  intro L
  induction L with
  | nil => exact fun acc => ⟨Or.inl rfl, Or.inl rfl, Or.inl rfl, Or.inl rfl⟩
  | cons q L ih =>
    intro acc
    obtain ⟨h1, h2, h3, h4⟩ := ih (scanStep buf acc q)
    simp only [List.foldl_cons]
    by_cases hq : 0 < alphaAt buf q.2 q.1
    · have hstep : scanStep buf acc q =
          ⟨min acc.minX q.2, min acc.minY q.1, max acc.maxX q.2, max acc.maxY q.1⟩ := by
        unfold scanStep; simp [hq]
      refine ⟨?_, ?_, ?_, ?_⟩
      · rcases h1 with h | ⟨p, hpL, hpa, hpe⟩
        · have h' : (L.foldl (scanStep buf) (scanStep buf acc q)).minX =
              min acc.minX (q.2 : Int) := by rw [h, hstep]
          rcases min_cases acc.minX (q.2 : Int) with ⟨he, _⟩ | ⟨he, _⟩
          · exact Or.inl (h'.trans he)
          · exact Or.inr ⟨q, List.mem_cons_self .., hq, h'.trans he⟩
        · exact Or.inr ⟨p, List.mem_cons_of_mem _ hpL, hpa, hpe⟩
      · rcases h2 with h | ⟨p, hpL, hpa, hpe⟩
        · have h' : (L.foldl (scanStep buf) (scanStep buf acc q)).minY =
              min acc.minY (q.1 : Int) := by rw [h, hstep]
          rcases min_cases acc.minY (q.1 : Int) with ⟨he, _⟩ | ⟨he, _⟩
          · exact Or.inl (h'.trans he)
          · exact Or.inr ⟨q, List.mem_cons_self .., hq, h'.trans he⟩
        · exact Or.inr ⟨p, List.mem_cons_of_mem _ hpL, hpa, hpe⟩
      · rcases h3 with h | ⟨p, hpL, hpa, hpe⟩
        · have h' : (L.foldl (scanStep buf) (scanStep buf acc q)).maxX =
              max acc.maxX (q.2 : Int) := by rw [h, hstep]
          rcases max_cases acc.maxX (q.2 : Int) with ⟨he, _⟩ | ⟨he, _⟩
          · exact Or.inl (h'.trans he)
          · exact Or.inr ⟨q, List.mem_cons_self .., hq, h'.trans he⟩
        · exact Or.inr ⟨p, List.mem_cons_of_mem _ hpL, hpa, hpe⟩
      · rcases h4 with h | ⟨p, hpL, hpa, hpe⟩
        · have h' : (L.foldl (scanStep buf) (scanStep buf acc q)).maxY =
              max acc.maxY (q.1 : Int) := by rw [h, hstep]
          rcases max_cases acc.maxY (q.1 : Int) with ⟨he, _⟩ | ⟨he, _⟩
          · exact Or.inl (h'.trans he)
          · exact Or.inr ⟨q, List.mem_cons_self .., hq, h'.trans he⟩
        · exact Or.inr ⟨p, List.mem_cons_of_mem _ hpL, hpa, hpe⟩
    · have hstep : scanStep buf acc q = acc := by unfold scanStep; simp [hq]
      rw [hstep] at h1 h2 h3 h4
      refine ⟨?_, ?_, ?_, ?_⟩
      · rcases h1 with h | ⟨p, hpL, hpa, hpe⟩
        · exact Or.inl (by rw [hstep]; exact h)
        · exact Or.inr ⟨p, List.mem_cons_of_mem _ hpL, hpa,
            by rw [hstep]; exact hpe⟩
      · rcases h2 with h | ⟨p, hpL, hpa, hpe⟩
        · exact Or.inl (by rw [hstep]; exact h)
        · exact Or.inr ⟨p, List.mem_cons_of_mem _ hpL, hpa,
            by rw [hstep]; exact hpe⟩
      · rcases h3 with h | ⟨p, hpL, hpa, hpe⟩
        · exact Or.inl (by rw [hstep]; exact h)
        · exact Or.inr ⟨p, List.mem_cons_of_mem _ hpL, hpa,
            by rw [hstep]; exact hpe⟩
      · rcases h4 with h | ⟨p, hpL, hpa, hpe⟩
        · exact Or.inl (by rw [hstep]; exact h)
        · exact Or.inr ⟨p, List.mem_cons_of_mem _ hpL, hpa,
            by rw [hstep]; exact hpe⟩

/-- A scan over pixels that are all fully transparent leaves the accumulator
unchanged. -/
theorem scan_foldl_transparent (buf : PixelBuffer) :
    ∀ (L : List (Nat × Nat)) (acc : ScanBox),
      (∀ p ∈ L, alphaAt buf p.2 p.1 = 0) →
      L.foldl (scanStep buf) acc = acc := by
  intro L
  induction L with
  | nil => intro acc _; rfl
  | cons q L ih =>
    intro acc h
    simp only [List.foldl_cons]
    have hq : scanStep buf acc q = acc := by
      unfold scanStep
      simp [h q (List.mem_cons_self ..)]
    rw [hq]
    exact ih acc fun p hp => h p (List.mem_cons_of_mem _ hp)

/-- The statement verified for claim C3, phrased over `scanBoundingBox` and
`processSignatureImage`: every positive-alpha pixel lies inside the returned
rectangle, each of the rectangle's four edges carries a positive-alpha pixel,
the output dimensions are exactly the bounding-box dimensions, and the aspect
ratio is computed from those trimmed dimensions. -/
def TrimSpec (buf : PixelBuffer) : Prop :=
  let box := scanBoundingBox buf
  (∀ x y, x < buf.width → y < buf.height → 0 < alphaAt buf x y →
    box.minX ≤ (x : Int) ∧ (x : Int) ≤ box.maxX ∧
    box.minY ≤ (y : Int) ∧ (y : Int) ≤ box.maxY) ∧
  (∃ y, y < buf.height ∧ 0 < alphaAt buf box.minX.toNat y) ∧
  (∃ y, y < buf.height ∧ 0 < alphaAt buf box.maxX.toNat y) ∧
  (∃ x, x < buf.width ∧ 0 < alphaAt buf x box.minY.toNat) ∧
  (∃ x, x < buf.width ∧ 0 < alphaAt buf x box.maxY.toNat) ∧
  processSignatureImage buf = ⟨box.maxX - box.minX + 1, box.maxY - box.minY + 1⟩ ∧
  newAspectRatio (processSignatureImage buf) =
    ((box.maxX - box.minX + 1 : Int) : ℚ) / ((box.maxY - box.minY + 1 : Int) : ℚ)

/-- Claim C3: on a buffer with at least one positive-alpha pixel the trim
returns the tight bounding box of positive-alpha content, the output has
exactly the trimmed dimensions, and the aspect ratio is derived from them. -/
theorem trim_boundingBox_correct (buf : PixelBuffer) (x0 y0 : Nat)
    (hx : x0 < buf.width) (hy : y0 < buf.height) (ha : 0 < alphaAt buf x0 y0) :
    TrimSpec buf := by
  have hmem0 : ((y0, x0) : Nat × Nat) ∈ pixelCoords buf :=
    (mem_pixelCoords buf (y0, x0)).mpr ⟨hy, hx⟩
  have hbounds0 := scan_foldl_bounds buf (pixelCoords buf) (scanInit buf) (y0, x0) hmem0 ha
  obtain ⟨hminle, hattainY, hattainXmax, hattainYmax⟩ :=
    scan_foldl_attained buf (pixelCoords buf) (scanInit buf)
  have hboxdef : scanBoundingBox buf =
      (pixelCoords buf).foldl (scanStep buf) (scanInit buf) := rfl
  rw [← hboxdef] at hbounds0 hminle hattainY hattainXmax hattainYmax
  set box := scanBoundingBox buf with hbox
  have hcontain : ∀ x y, x < buf.width → y < buf.height → 0 < alphaAt buf x y →
      box.minX ≤ (x : Int) ∧ (x : Int) ≤ box.maxX ∧
      box.minY ≤ (y : Int) ∧ (y : Int) ≤ box.maxY := by
    intro x y hx' hy' ha'
    have hm : ((y, x) : Nat × Nat) ∈ pixelCoords buf :=
      (mem_pixelCoords buf (y, x)).mpr ⟨hy', hx'⟩
    have h := scan_foldl_bounds buf (pixelCoords buf) (scanInit buf) (y, x) hm ha'
    rw [← hboxdef] at h
    exact ⟨h.1, h.2.2.1, h.2.1, h.2.2.2⟩
  have hmaxXne : box.maxX ≠ -1 := by
    intro h
    have := hbounds0.2.2.1
    rw [h] at this
    omega
  have hedgeMinX : ∃ y, y < buf.height ∧ 0 < alphaAt buf box.minX.toNat y := by
    rcases hminle with h | ⟨p, hpL, hpa, hpe⟩
    · exfalso
      have h1 := hbounds0.1
      rw [h] at h1
      simp only [scanInit] at h1
      omega
    · obtain ⟨hpy, hpx⟩ := (mem_pixelCoords buf p).mp hpL
      refine ⟨p.1, hpy, ?_⟩
      have : box.minX.toNat = p.2 := by rw [hpe]; exact Int.toNat_natCast p.2
      rw [this]; exact hpa
  have hedgeMaxX : ∃ y, y < buf.height ∧ 0 < alphaAt buf box.maxX.toNat y := by
    rcases hattainXmax with h | ⟨p, hpL, hpa, hpe⟩
    · exact absurd (h.trans rfl) hmaxXne
    · obtain ⟨hpy, hpx⟩ := (mem_pixelCoords buf p).mp hpL
      refine ⟨p.1, hpy, ?_⟩
      have : box.maxX.toNat = p.2 := by rw [hpe]; exact Int.toNat_natCast p.2
      rw [this]; exact hpa
  have hedgeMinY : ∃ x, x < buf.width ∧ 0 < alphaAt buf x box.minY.toNat := by
    rcases hattainY with h | ⟨p, hpL, hpa, hpe⟩
    · exfalso
      have h2 := hbounds0.2.1
      rw [h] at h2
      simp only [scanInit] at h2
      omega
    · obtain ⟨hpy, hpx⟩ := (mem_pixelCoords buf p).mp hpL
      refine ⟨p.2, hpx, ?_⟩
      have : box.minY.toNat = p.1 := by rw [hpe]; exact Int.toNat_natCast p.1
      rw [this]; exact hpa
  have hedgeMaxY : ∃ x, x < buf.width ∧ 0 < alphaAt buf x box.maxY.toNat := by
    rcases hattainYmax with h | ⟨p, hpL, hpa, hpe⟩
    · exfalso
      have h4 := hbounds0.2.2.2
      rw [h] at h4
      simp only [scanInit] at h4
      omega
    · obtain ⟨hpy, hpx⟩ := (mem_pixelCoords buf p).mp hpL
      refine ⟨p.2, hpx, ?_⟩
      have : box.maxY.toNat = p.1 := by rw [hpe]; exact Int.toNat_natCast p.1
      rw [this]; exact hpa
  have hdims : processSignatureImage buf =
      ⟨box.maxX - box.minX + 1, box.maxY - box.minY + 1⟩ := by
    unfold processSignatureImage
    rw [← hbox]
    simp [hmaxXne]
  exact ⟨hcontain, hedgeMinX, hedgeMaxX, hedgeMinY, hedgeMaxY, hdims,
    by rw [hdims]; rfl⟩

/-- A 2-by-2 test buffer whose only positive-alpha pixel sits at (1, 1). -/
def bufC3 : PixelBuffer :=
  ⟨2, 2, [0, 0, 0, 0, 0, 0, 0, 0, 0, 0, 0, 0, 9, 9, 9, 7]⟩

theorem trim_boundingBox_witness :
    (1 < bufC3.width ∧ 1 < bufC3.height ∧ 0 < alphaAt bufC3 1 1) ∧ TrimSpec bufC3 :=
  ⟨by decide, trim_boundingBox_correct bufC3 1 1 (by decide) (by decide) (by decide)⟩

/-! ## The placement store and its gesture handlers -/

structure Position where
  x : ℚ
  y : ℚ
deriving DecidableEq

/-- `PlacedSignature` of the component (ids come from `Date.now()`). -/
structure PlacedSignature where
  id : Int
  page : Nat
  position : Position
  width : ℚ
  height : ℚ
  aspectRatio : ℚ
deriving DecidableEq

structure SigSize where
  width : ℚ
  height : ℚ
deriving DecidableEq

/-- The value of the `draggedSignature` signal while a drag is active. -/
structure DragContext where
  signature : PlacedSignature
  startPos : Position
  eventStartPos : Position
deriving DecidableEq

/-- The value of the `resizingSignature` signal while a resize is active. -/
structure ResizeContext where
  signature : PlacedSignature
  startSize : SigSize
  eventStartPos : Position
deriving DecidableEq

/-- The component state the placement claims depend on.  `trimmedAspect` is
`trimmedSignatureSize().aspectRatio`, the aspect ratio of the active ink
mask.  (Signals that only gate whether a handler runs at all — such as
`isPlacingSignature` and `signatureDataUrl` — are not modelled; the
operations below are the state updates those handlers perform when they
run.) -/
structure AppState where
  placedSignatures : List PlacedSignature
  draggedSignature : Option DragContext
  resizingSignature : Option ResizeContext
  interactionOccurred : Bool
  trimmedAspect : ℚ
deriving DecidableEq

/-- `const newWidth = Math.max(20, ...)` in `onDrag`. -/
def minimumSignatureWidth : ℚ := 20

/-- The store-mutating events.  `placeClick` carries the `Date.now()` value,
the current page, the click position in the viewer (after scroll
correction), and `defaultWidth = canvas.offsetWidth * 0.15`.  `dragStart`
and `resizeStart` carry the id of the signature the pointer went down on
(the template passes the instance itself; it is looked up by id here) and
the pointer position.  `pointerMove` is the window-level `onDrag` handler,
`endInteraction` the window-level pointer-up handler, and `maskReplace` the
bulk geometry update `finalizeSignature` performs with the new mask's
aspect ratio. -/
inductive Op where
  | placeClick (id : Int) (page : Nat) (clickPos : Position) (defaultWidth : ℚ)
  | dragStart (sigId : Int) (eventPos : Position)
  | resizeStart (sigId : Int) (eventPos : Position)
  | pointerMove (eventPos : Position)
  | endInteraction
  | maskReplace (newAspect : ℚ)

def step (st : AppState) : Op → AppState
  | .placeClick id page clickPos defaultWidth =>
    -- placeSignatureOnClick: `if (this.interactionOccurred) return;`
    if st.interactionOccurred then st
    else
      let defaultHeight := defaultWidth / st.trimmedAspect
      let newSignature : PlacedSignature :=
        { id := id, page := page,
          position := { x := clickPos.x - defaultWidth / 2,
                        y := clickPos.y - defaultHeight / 2 },
          width := defaultWidth, height := defaultHeight,
          aspectRatio := st.trimmedAspect }
      { st with placedSignatures := st.placedSignatures ++ [newSignature] }
  | .dragStart sigId eventPos =>
    match st.placedSignatures.find? fun s => s.id == sigId with
    | some s =>
      { st with
        draggedSignature := some ⟨s, s.position, eventPos⟩,
        interactionOccurred := true }
    | none => st
  | .resizeStart sigId eventPos =>
    match st.placedSignatures.find? fun s => s.id == sigId with
    | some s =>
      { st with
        resizingSignature := some ⟨s, ⟨s.width, s.height⟩, eventPos⟩,
        interactionOccurred := true }
    | none => st
  | .pointerMove eventPos =>
    match st.draggedSignature with
    | some currentDrag =>
      let dx := eventPos.x - currentDrag.eventStartPos.x
      let dy := eventPos.y - currentDrag.eventStartPos.y
      { st with placedSignatures :=
          st.placedSignatures.map fun s =>
            if s.id = currentDrag.signature.id then
              { s with position := { x := currentDrag.startPos.x + dx,
                                     y := currentDrag.startPos.y + dy } }
            else s }
    | none =>
      match st.resizingSignature with
      | some currentResize =>
        let dx := eventPos.x - currentResize.eventStartPos.x
        let newWidth := max minimumSignatureWidth (currentResize.startSize.width + dx)
        let newHeight := newWidth / currentResize.signature.aspectRatio
        { st with placedSignatures :=
            st.placedSignatures.map fun s =>
              if s.id = currentResize.signature.id then
                { s with width := newWidth, height := newHeight }
              else s }
      | none => st
  | .endInteraction =>
    -- onEndInteraction (the deferred reset of `interactionOccurred` is
    -- modelled as immediate)
    { st with draggedSignature := none, resizingSignature := none,
              interactionOccurred := false }
  | .maskReplace newAspect =>
    { st with
      trimmedAspect := newAspect,
      placedSignatures :=
        st.placedSignatures.map fun s =>
          { s with aspectRatio := newAspect, height := s.width / newAspect } }

def run (st : AppState) (ops : List Op) : AppState :=
  ops.foldl step st

/-- `deleteSignature`: removes every instance whose id equals the given id. -/
def deleteSignature (st : AppState) (idToDelete : Int) : AppState :=
  { st with placedSignatures := st.placedSignatures.filter fun s => s.id != idToDelete }

/-- `finalizeSignature`: trims the processed mask, throws when the trim came
back empty (`processed.width === 0`), and otherwise installs the new aspect
ratio and rewrites every placed instance — exactly the `maskReplace` step. -/
def finalizeSignature (buf : PixelBuffer) (st : AppState) : Except String AppState :=
  let processed := processSignatureImage buf
  if processed.width = 0 then
    .error "Не удалось обработать изображение. Возможно, оно полностью прозрачно."
  else
    .ok (step st (.maskReplace (newAspectRatio processed)))

/-- On a fully transparent buffer the scan never fires, so the bounding box
keeps its sentinel initial value. -/
theorem scanBoundingBox_transparent (buf : PixelBuffer)
    (h : ∀ x, x < buf.width → ∀ y, y < buf.height → alphaAt buf x y = 0) :
    scanBoundingBox buf = scanInit buf := by
  apply scan_foldl_transparent
  intro p hp
  obtain ⟨hy, hx⟩ := (mem_pixelCoords buf p).mp hp
  exact h p.2 hx p.1 hy

/-- A non-sentinel scan result has at least one column and one row. -/
theorem scanBoundingBox_nonempty_dims (buf : PixelBuffer)
    (h : (scanBoundingBox buf).maxX ≠ -1) :
    1 ≤ (scanBoundingBox buf).maxX - (scanBoundingBox buf).minX + 1 ∧
    1 ≤ (scanBoundingBox buf).maxY - (scanBoundingBox buf).minY + 1 := by
  obtain ⟨_, _, hattX, hattY⟩ := scan_foldl_attained buf (pixelCoords buf) (scanInit buf)
  have hboxdef : scanBoundingBox buf =
      (pixelCoords buf).foldl (scanStep buf) (scanInit buf) := rfl
  rw [← hboxdef] at hattX hattY
  rcases hattX with hX | ⟨p, hpL, hpa, hpe⟩
  · exact absurd hX h
  · have hp := scan_foldl_bounds buf (pixelCoords buf) (scanInit buf) p hpL hpa
    rw [← hboxdef] at hp
    constructor
    · have := hp.1
      rw [hpe]
      omega
    · rcases hattY with hY | ⟨q, hqL, hqa, hqe⟩
      · exfalso
        have := hp.2.2.2
        rw [hY] at this
        simp only [scanInit] at this
        omega
      · have hq := scan_foldl_bounds buf (pixelCoords buf) (scanInit buf) q hqL hqa
        rw [← hboxdef] at hq
        have := hq.2.1
        rw [hqe]
        omega

/-- Claim C4: a fully transparent input makes the trim resolve the
`width = 0` sentinel and makes `finalizeSignature` throw rather than
proceed; conversely a successful `finalizeSignature` never carries a
zero-area trim result — so the sentinel is a distinguishable empty-content
condition, not a zero-area success. -/
theorem trim_emptyContent_correct (buf : PixelBuffer) (st : AppState) :
    ((∀ x, x < buf.width → ∀ y, y < buf.height → alphaAt buf x y = 0) →
      processSignatureImage buf = ⟨0, 0⟩ ∧
      finalizeSignature buf st =
        .error "Не удалось обработать изображение. Возможно, оно полностью прозрачно.") ∧
    (∀ st', finalizeSignature buf st = .ok st' →
      1 ≤ (processSignatureImage buf).width ∧ 1 ≤ (processSignatureImage buf).height) := by
  constructor
  · intro h
    have hbox := scanBoundingBox_transparent buf h
    have hproc : processSignatureImage buf = ⟨0, 0⟩ := by
      unfold processSignatureImage
      rw [hbox]
      rfl
    refine ⟨hproc, ?_⟩
    unfold finalizeSignature
    rw [hproc]
    rfl
  · intro st' hok
    unfold finalizeSignature at hok
    by_cases hzero : (processSignatureImage buf).width = 0
    · rw [if_pos hzero] at hok
      exact absurd hok (by simp)
    · refine ⟨?_, ?_⟩ <;>
      · have hne : (scanBoundingBox buf).maxX ≠ -1 := by
          intro hsent
          apply hzero
          unfold processSignatureImage
          rw [if_pos hsent]
        have hdims := scanBoundingBox_nonempty_dims buf hne
        unfold processSignatureImage
        rw [if_neg hne]
        first
        | exact hdims.1
        | exact hdims.2

/-- A 1-by-1 fully transparent buffer. -/
def bufC4 : PixelBuffer := ⟨1, 1, [5, 6, 7, 0]⟩

/-- An idle component state with an empty store. -/
def stEmpty : AppState := ⟨[], none, none, false, 1⟩

theorem trim_emptyContent_witness :
    processSignatureImage bufC4 = ⟨0, 0⟩ ∧
    finalizeSignature bufC4 stEmpty =
      .error "Не удалось обработать изображение. Возможно, оно полностью прозрачно." :=
  (trim_emptyContent_correct bufC4 stEmpty).1 (by decide)

/-! ## Invariants of the placement store -/

/-- The data-model invariant `height = width / aspectRatio`. -/
def SigInv (s : PlacedSignature) : Prop := s.height = s.width / s.aspectRatio

def StoreInv (l : List PlacedSignature) : Prop := ∀ s ∈ l, SigInv s

/-- No two instances of the store share an id. -/
def UniqueIds (l : List PlacedSignature) : Prop :=
  l.Pairwise fun a b => a.id ≠ b.id

/-- While a resize gesture is active, the captured signature's aspect ratio
agrees with the live instance(s) carrying its id. -/
def ResizeCtxOk (st : AppState) : Prop :=
  ∀ ctx, st.resizingSignature = some ctx →
    ∀ s ∈ st.placedSignatures, s.id = ctx.signature.id →
      s.aspectRatio = ctx.signature.aspectRatio

/-- An active resize gesture implies the `interactionOccurred` guard is set
(true in every state the component reaches, since `resizeStart` sets both
and `onEndInteraction` clears the gesture first). -/
def FlagSync (st : AppState) : Prop :=
  st.resizingSignature.isSome = true → st.interactionOccurred = true

def GoodState (st : AppState) : Prop :=
  StoreInv st.placedSignatures ∧ UniqueIds st.placedSignatures ∧
    ResizeCtxOk st ∧ FlagSync st

/-- Freshness of placement timestamps: a `placeClick` carries a `Date.now()`
value not already present in the store. -/
def stepFresh (st : AppState) : Op → Bool
  | .placeClick id _ _ _ => st.placedSignatures.all fun s => s.id != id
  | _ => true

/-- Side conditions of the amended invariant claim: placement ids are fresh
and the active ink mask is only replaced while no resize gesture is active. -/
def stepOk (st : AppState) : Op → Bool
  | .placeClick id _ _ _ => st.placedSignatures.all fun s => s.id != id
  | .maskReplace _ => st.resizingSignature.isNone
  | _ => true

def freshRun : AppState → List Op → Bool
  | _, [] => true
  | st, op :: ops => stepFresh st op && freshRun (step st op) ops

def okRun : AppState → List Op → Bool
  | _, [] => true
  | st, op :: ops => stepOk st op && okRun (step st op) ops

theorem stepOk_implies_fresh (st : AppState) (op : Op) (h : stepOk st op = true) :
    stepFresh st op = true := by
  cases op <;> simp_all [stepOk, stepFresh]

theorem unique_id_mem_eq {l : List PlacedSignature} (h : UniqueIds l)
    {s t : PlacedSignature} (hs : s ∈ l) (ht : t ∈ l) (hid : s.id = t.id) :
    s = t := by
  induction l with
  | nil => exact absurd hs (List.not_mem_nil s)
  | cons a l ih =>
    have hpair := List.pairwise_cons.mp h
    rcases List.mem_cons.mp hs with rfl | hs' <;> rcases List.mem_cons.mp ht with rfl | ht'
    · rfl
    · exact absurd hid (hpair.1 t ht')
    · exact absurd hid.symm (hpair.1 s hs')
    · exact ih hpair.2 hs' ht'

theorem uniqueIds_map (l : List PlacedSignature) (f : PlacedSignature → PlacedSignature)
    (hf : ∀ s, (f s).id = s.id) (h : UniqueIds l) : UniqueIds (l.map f) := by
  unfold UniqueIds at *
  rw [List.pairwise_map]
  exact h.imp fun {a b} hab => by rw [hf, hf]; exact hab

/-- Any single event preserves id-uniqueness of the store, as long as a
placement uses a fresh timestamp. -/
theorem step_unique (st : AppState) (op : Op)
    (h : UniqueIds st.placedSignatures) (hf : stepFresh st op = true) :
    UniqueIds (step st op).placedSignatures := by
  cases op with
  | placeClick id page clickPos defaultWidth =>
    simp only [step]
    cases hflag : st.interactionOccurred with
    | true => simpa [hflag] using h
    | false =>
      simp only [hflag, Bool.false_eq_true, if_false]
      have hfresh : ∀ s ∈ st.placedSignatures, s.id ≠ id := by
        intro s hs
        have := List.all_eq_true.mp hf s hs
        simpa using this
      refine List.pairwise_append.mpr ⟨h, List.pairwise_singleton .., ?_⟩
      intro a ha b hb
      rw [List.mem_singleton.mp hb]
      exact hfresh a ha
  | dragStart sigId eventPos =>
    simp only [step]
    cases hfind : st.placedSignatures.find? fun s => s.id == sigId <;>
      simp only [hfind] <;> exact h
  | resizeStart sigId eventPos =>
    simp only [step]
    cases hfind : st.placedSignatures.find? fun s => s.id == sigId <;>
      simp only [hfind] <;> exact h
  | pointerMove eventPos =>
    simp only [step]
    cases hd : st.draggedSignature with
    | some ctx =>
      simp only [hd]
      exact uniqueIds_map _ _ (fun s => by by_cases hid : s.id = ctx.signature.id <;>
        simp [hid]) h
    | none =>
      simp only [hd]
      cases hr : st.resizingSignature with
      | some ctx =>
        simp only [hr]
        exact uniqueIds_map _ _ (fun s => by by_cases hid : s.id = ctx.signature.id <;>
          simp [hid]) h
      | none => simpa [hr] using h
  | endInteraction => exact h
  | maskReplace newAspect =>
    simp only [step]
    exact uniqueIds_map _ _ (fun s => rfl) h

/-- Any single event satisfying its side condition preserves the combined
store invariants. -/
theorem step_good (st : AppState) (op : Op)
    (hg : GoodState st) (hok : stepOk st op = true) :
    GoodState (step st op) := by
  obtain ⟨hinv, huniq, hctx, hsync⟩ := hg
  have huniq' := step_unique st op huniq (stepOk_implies_fresh st op hok)
  cases op with
  | placeClick id page clickPos defaultWidth =>
    cases hflag : st.interactionOccurred with
    | true =>
      have hst : step st (.placeClick id page clickPos defaultWidth) = st := by
        simp [step, hflag]
      rw [hst]
      exact ⟨hinv, huniq, hctx, hsync⟩
    | false =>
      have hnores : st.resizingSignature = none := by
        cases hres : st.resizingSignature with
        | none => rfl
        | some ctx => exact absurd (hsync (by simp [hres])) (by simp [hflag])
      have hres' : (step st (.placeClick id page clickPos defaultWidth)).resizingSignature
          = none := by simp [step, hflag, hnores]
      refine ⟨?_, huniq', ?_, ?_⟩
      · intro s hs
        simp only [step, hflag, Bool.false_eq_true, if_false, List.mem_append,
          List.mem_singleton] at hs
        rcases hs with hs | rfl
        · exact hinv s hs
        · rfl
      · intro ctx hc
        rw [hres'] at hc
        exact absurd hc (by simp)
      · intro hs
        rw [hres'] at hs
        exact absurd hs (by simp)
  | dragStart sigId eventPos =>
    cases hfind : st.placedSignatures.find? (fun s => s.id == sigId) with
    | none =>
      have hst : step st (.dragStart sigId eventPos) = st := by simp [step, hfind]
      rw [hst]
      exact ⟨hinv, huniq, hctx, hsync⟩
    | some s =>
      refine ⟨?_, huniq', ?_, ?_⟩
      · intro t ht
        simp only [step, hfind] at ht
        exact hinv t ht
      · intro ctx hc t ht hid
        simp only [step, hfind] at hc ht
        exact hctx ctx hc t ht hid
      · intro _
        simp [step, hfind]
  | resizeStart sigId eventPos =>
    cases hfind : st.placedSignatures.find? (fun s => s.id == sigId) with
    | none =>
      have hst : step st (.resizeStart sigId eventPos) = st := by simp [step, hfind]
      rw [hst]
      exact ⟨hinv, huniq, hctx, hsync⟩
    | some s =>
      have hmem : s ∈ st.placedSignatures := List.mem_of_find?_eq_some hfind
      refine ⟨?_, huniq', ?_, ?_⟩
      · intro t ht
        simp only [step, hfind] at ht
        exact hinv t ht
      · intro ctx hc t ht hid
        simp only [step, hfind, Option.some.injEq] at hc ht
        subst hc
        have : t = s := unique_id_mem_eq huniq ht hmem hid
        rw [this]
      · intro _
        simp [step, hfind]
  | pointerMove eventPos =>
    cases hd : st.draggedSignature with
    | some ctx =>
      refine ⟨?_, huniq', ?_, ?_⟩
      · intro t ht
        simp only [step, hd, List.mem_map] at ht
        obtain ⟨u, hu, rfl⟩ := ht
        by_cases hid : u.id = ctx.signature.id <;> unfold SigInv <;> simp only [hid,
          if_true, if_false, ite_true, ite_false] <;> exact hinv u hu
      · intro ctx' hc t ht hid
        simp only [step, hd, List.mem_map] at hc ht
        obtain ⟨u, hu, rfl⟩ := ht
        have huid : (if u.id = ctx.signature.id then
            { u with position := ⟨ctx.startPos.x + (eventPos.x - ctx.eventStartPos.x),
                                  ctx.startPos.y + (eventPos.y - ctx.eventStartPos.y)⟩ }
          else u).id = u.id := by
          by_cases h : u.id = ctx.signature.id <;> simp [h]
        have huar : (if u.id = ctx.signature.id then
            { u with position := ⟨ctx.startPos.x + (eventPos.x - ctx.eventStartPos.x),
                                  ctx.startPos.y + (eventPos.y - ctx.eventStartPos.y)⟩ }
          else u).aspectRatio = u.aspectRatio := by
          by_cases h : u.id = ctx.signature.id <;> simp [h]
        rw [huar]
        rw [huid] at hid
        exact hctx ctx' hc u hu hid
      · intro hs
        simp only [step, hd] at hs ⊢
        exact hsync hs
    | none =>
      cases hr : st.resizingSignature with
      | some ctx =>
        refine ⟨?_, huniq', ?_, ?_⟩
        · intro t ht
          simp only [step, hd, hr, List.mem_map] at ht
          obtain ⟨u, hu, rfl⟩ := ht
          by_cases hid : u.id = ctx.signature.id
          · have har := hctx ctx hr u hu hid
            unfold SigInv
            simp only [hid, if_true, ite_true]
            rw [har]
          · unfold SigInv
            simp only [hid, if_false, ite_false]
            exact hinv u hu
        · intro ctx' hc t ht hid
          simp only [step, hd, hr, Option.some.injEq] at hc
          subst hc
          simp only [step, hd, hr, List.mem_map] at ht
          obtain ⟨u, hu, rfl⟩ := ht
          have huid : (if u.id = ctx.signature.id then
              { u with
                width := max minimumSignatureWidth
                  (ctx.startSize.width + (eventPos.x - ctx.eventStartPos.x)),
                height := max minimumSignatureWidth
                  (ctx.startSize.width + (eventPos.x - ctx.eventStartPos.x)) /
                    ctx.signature.aspectRatio }
            else u).id = u.id := by
            by_cases h : u.id = ctx.signature.id <;> simp [h]
          have huar : (if u.id = ctx.signature.id then
              { u with
                width := max minimumSignatureWidth
                  (ctx.startSize.width + (eventPos.x - ctx.eventStartPos.x)),
                height := max minimumSignatureWidth
                  (ctx.startSize.width + (eventPos.x - ctx.eventStartPos.x)) /
                    ctx.signature.aspectRatio }
            else u).aspectRatio = u.aspectRatio := by
            by_cases h : u.id = ctx.signature.id <;> simp [h]
          rw [huar]
          rw [huid] at hid
          exact hctx ctx hr u hu hid
        · intro hs
          have hfl : (step st (.pointerMove eventPos)).interactionOccurred =
              st.interactionOccurred := by simp [step, hd, hr]
          rw [hfl]
          exact hsync (by simp [hr])
      | none =>
        have hst : step st (.pointerMove eventPos) = st := by simp [step, hd, hr]
        rw [hst]
        exact ⟨hinv, huniq, hctx, hsync⟩
  | endInteraction =>
    refine ⟨?_, huniq', ?_, ?_⟩
    · intro t ht
      simp only [step] at ht
      exact hinv t ht
    · intro ctx hc
      simp only [step] at hc
      exact absurd hc (by simp)
    · intro hs
      simp only [step] at hs
      exact absurd hs (by simp)
  | maskReplace newAspect =>
    have hnone : st.resizingSignature = none := by
      have : st.resizingSignature.isNone = true := by simpa [stepOk] using hok
      exact Option.isNone_iff_eq_none.mp this
    refine ⟨?_, huniq', ?_, ?_⟩
    · intro t ht
      simp only [step, List.mem_map] at ht
      obtain ⟨u, hu, rfl⟩ := ht
      rfl
    · intro ctx hc
      simp only [step, hnone] at hc
      exact absurd hc (by simp)
    · intro hs
      simp only [step, hnone] at hs
      exact absurd hs (by simp)

/-- Runs whose steps satisfy their side conditions preserve the combined
invariants. -/
theorem good_run (st : AppState) (ops : List Op) (hg : GoodState st)
    (hok : okRun st ops = true) : GoodState (run st ops) := by
  induction ops generalizing st with
  | nil => exact hg
  | cons op ops ih =>
    simp only [okRun, Bool.and_eq_true] at hok
    exact ih (step st op) (step_good st op hg hok.1) hok.2

def defaultSig : PlacedSignature := ⟨0, 0, ⟨0, 0⟩, 0, 0, 1⟩

theorem getD_of_lt {α : Type _} (l : List α) (i : Nat) (d : α) (h : i < l.length) :
    l.getD i d = l[i] := by
  rw [List.getD_eq_getElem?_getD, List.getElem?_eq_getElem h, Option.getD_some]

theorem map_getD_of_lt {α β : Type _} (l : List α) (f : α → β) (i : Nat) (da : α) (db : β)
    (h : i < l.length) : (l.map f).getD i db = f (l.getD i da) := by
  have h' : i < (l.map f).length := by simpa using h
  rw [getD_of_lt _ _ _ h', List.getElem_map, getD_of_lt _ _ _ h]

/-- A store with one instance whose geometry satisfies the invariant. -/
def sigA : PlacedSignature := ⟨1, 1, ⟨0, 0⟩, 30, 30, 1⟩

def stC2 : AppState := ⟨[sigA], none, none, false, 1⟩

/-- A resize gesture is begun, the active ink mask is replaced while the
gesture is still active, then the resize pointer-move fires. -/
def opsC2 : List Op := [.resizeStart 1 ⟨0, 0⟩, .maskReplace 2, .pointerMove ⟨0, 0⟩]

/-- Claim C2, counterexample: a mask replacement interleaved inside an
active resize gesture leaves an instance with `height ≠ width / aspectRatio`
— the pointer-move recomputes the height from the gesture's captured (stale)
aspect ratio while the instance already carries the new one. -/
theorem placedSignature_invariant_counterexample :
    ∃ s ∈ (run stC2 opsC2).placedSignatures, s.height ≠ s.width / s.aspectRatio := by
  have hl : (run stC2 opsC2).placedSignatures = [⟨1, 1, ⟨0, 0⟩, 30, 30, 2⟩] := by
    norm_num [run, step, stC2, opsC2, sigA, minimumSignatureWidth, List.find?, max_def]
  refine ⟨⟨1, 1, ⟨0, 0⟩, 30, 30, 2⟩, by rw [hl]; exact List.mem_singleton.mpr rfl, by norm_num⟩

/-- Claim C2 (amended): starting from an idle state (no active resize, no
pending interaction guard) whose store satisfies `height = width /
aspectRatio` and has pairwise distinct ids, the invariant is preserved by
every event sequence in which placements use fresh ids and the ink mask is
only replaced while no resize gesture is active. -/
theorem placedSignature_invariant_amended (st : AppState) (ops : List Op)
    (hres : st.resizingSignature = none) (hflag : st.interactionOccurred = false)
    (hinv : StoreInv st.placedSignatures) (huniq : UniqueIds st.placedSignatures)
    (hok : okRun st ops = true) :
    StoreInv (run st ops).placedSignatures := by
  have hg : GoodState st := by
    refine ⟨hinv, huniq, ?_, ?_⟩
    · intro ctx hc
      rw [hres] at hc
      exact absurd hc (by simp)
    · intro hs
      rw [hres] at hs
      exact absurd hs (by simp)
  exact (good_run st ops hg hok).1

/-- A well-formed gesture history: place, drag, resize, replace the mask
between gestures, place again with a fresh id. -/
def opsC2w : List Op :=
  [.placeClick 1 1 ⟨100, 100⟩ 60, .dragStart 1 ⟨0, 0⟩, .pointerMove ⟨5, 5⟩,
   .endInteraction, .maskReplace 2, .resizeStart 1 ⟨0, 0⟩, .pointerMove ⟨9, 0⟩,
   .endInteraction, .placeClick 2 1 ⟨50, 50⟩ 60]

theorem placedSignature_invariant_witness :
    (stEmpty.resizingSignature = none ∧ stEmpty.interactionOccurred = false ∧
      StoreInv stEmpty.placedSignatures ∧ UniqueIds stEmpty.placedSignatures ∧
      okRun stEmpty opsC2w = true) ∧
    StoreInv (run stEmpty opsC2w).placedSignatures := by
  have h1 : StoreInv stEmpty.placedSignatures := fun s hs => absurd hs (List.not_mem_nil s)
  have h2 : UniqueIds stEmpty.placedSignatures := List.Pairwise.nil
  have h3 : okRun stEmpty opsC2w = true := by decide
  exact ⟨⟨rfl, rfl, h1, h2, h3⟩,
    placedSignature_invariant_amended stEmpty opsC2w rfl rfl h1 h2 h3⟩

/-- The statement verified for claim C6: the bulk update performed when the
active ink mask is replaced keeps the store's length, rewrites every
instance's `aspectRatio` to the new ratio and its `height` to
`width / ratio`, and leaves `id`, `page`, `position` and `width` unchanged. -/
def MaskReplaceSpec (st : AppState) (A : ℚ) : Prop :=
  (step st (.maskReplace A)).placedSignatures.length = st.placedSignatures.length ∧
  ∀ i, i < st.placedSignatures.length →
    ((step st (.maskReplace A)).placedSignatures.getD i defaultSig).aspectRatio = A ∧
    ((step st (.maskReplace A)).placedSignatures.getD i defaultSig).height =
      (st.placedSignatures.getD i defaultSig).width / A ∧
    ((step st (.maskReplace A)).placedSignatures.getD i defaultSig).id =
      (st.placedSignatures.getD i defaultSig).id ∧
    ((step st (.maskReplace A)).placedSignatures.getD i defaultSig).page =
      (st.placedSignatures.getD i defaultSig).page ∧
    ((step st (.maskReplace A)).placedSignatures.getD i defaultSig).position =
      (st.placedSignatures.getD i defaultSig).position ∧
    ((step st (.maskReplace A)).placedSignatures.getD i defaultSig).width =
      (st.placedSignatures.getD i defaultSig).width

/-- Claim C6: replacing the active ink mask rewrites aspect ratio and height
on every instance and touches nothing else, neither adding nor removing
instances. -/
theorem maskReplace_frame_effect (st : AppState) (A : ℚ) : MaskReplaceSpec st A := by
  unfold MaskReplaceSpec
  constructor
  · simp [step]
  · intro i hi
    have hmap : (step st (.maskReplace A)).placedSignatures =
        st.placedSignatures.map fun s =>
          { s with aspectRatio := A, height := s.width / A } := by
      simp [step]
    rw [hmap, map_getD_of_lt _ _ i defaultSig defaultSig hi]
    exact ⟨rfl, rfl, rfl, rfl, rfl, rfl⟩

theorem maskReplace_frame_witness : MaskReplaceSpec stC2 2 :=
  maskReplace_frame_effect stC2 2

/-- The statement verified for claim C7: a resize pointer-move clamps the
targeted instance's width to
`max(minimumWidth, startWidth + dx)`, re-derives its height from that width
and the captured aspect ratio, changes nothing else on it, and leaves every
other instance and the store length unchanged. -/
def ResizeMoveSpec (st : AppState) (ctx : ResizeContext) (e : Position) : Prop :=
  (step st (.pointerMove e)).placedSignatures.length = st.placedSignatures.length ∧
  ∀ i, i < st.placedSignatures.length →
    ((st.placedSignatures.getD i defaultSig).id = ctx.signature.id →
      ((step st (.pointerMove e)).placedSignatures.getD i defaultSig).width =
        max minimumSignatureWidth (ctx.startSize.width + (e.x - ctx.eventStartPos.x)) ∧
      minimumSignatureWidth ≤
        ((step st (.pointerMove e)).placedSignatures.getD i defaultSig).width ∧
      ((step st (.pointerMove e)).placedSignatures.getD i defaultSig).height =
        ((step st (.pointerMove e)).placedSignatures.getD i defaultSig).width /
          ctx.signature.aspectRatio ∧
      ((step st (.pointerMove e)).placedSignatures.getD i defaultSig).id =
        (st.placedSignatures.getD i defaultSig).id ∧
      ((step st (.pointerMove e)).placedSignatures.getD i defaultSig).page =
        (st.placedSignatures.getD i defaultSig).page ∧
      ((step st (.pointerMove e)).placedSignatures.getD i defaultSig).position =
        (st.placedSignatures.getD i defaultSig).position ∧
      ((step st (.pointerMove e)).placedSignatures.getD i defaultSig).aspectRatio =
        (st.placedSignatures.getD i defaultSig).aspectRatio) ∧
    ((st.placedSignatures.getD i defaultSig).id ≠ ctx.signature.id →
      (step st (.pointerMove e)).placedSignatures.getD i defaultSig =
        st.placedSignatures.getD i defaultSig)

/-- Claim C7: during a resize, width becomes
`max(minimumWidth, startWidth + dx)` — never below the minimum width
constant — and height is re-derived from that width and the aspect ratio;
width is the only independently changed axis. -/
theorem resize_clamps_width (st : AppState) (ctx : ResizeContext) (e : Position)
    (hd : st.draggedSignature = none) (hr : st.resizingSignature = some ctx) :
    ResizeMoveSpec st ctx e := by
  unfold ResizeMoveSpec
  have hmap : (step st (.pointerMove e)).placedSignatures =
      st.placedSignatures.map fun s =>
        if s.id = ctx.signature.id then
          { s with
            width := max minimumSignatureWidth
              (ctx.startSize.width + (e.x - ctx.eventStartPos.x)),
            height := max minimumSignatureWidth
              (ctx.startSize.width + (e.x - ctx.eventStartPos.x)) /
                ctx.signature.aspectRatio }
        else s := by
    simp [step, hd, hr]
  constructor
  · rw [hmap]
    simp
  · intro i hi
    rw [hmap, map_getD_of_lt _ _ i defaultSig defaultSig hi]
    constructor
    · intro hid
      rw [if_pos hid]
      exact ⟨rfl, le_max_left _ _, rfl, rfl, rfl, rfl, rfl⟩
    · intro hid
      rw [if_neg hid]

def ctxC7 : ResizeContext := ⟨sigA, ⟨30, 30⟩, ⟨0, 0⟩⟩

def stC7 : AppState := ⟨[sigA], none, some ctxC7, true, 1⟩

theorem resize_clamps_width_witness :
    (stC7.draggedSignature = none ∧ stC7.resizingSignature = some ctxC7) ∧
    ResizeMoveSpec stC7 ctxC7 ⟨-100, 0⟩ :=
  ⟨⟨rfl, rfl⟩, resize_clamps_width stC7 ctxC7 ⟨-100, 0⟩ rfl rfl⟩

/-- An idle state whose active mask has aspect ratio 2. -/
def stC9 : AppState := ⟨[], none, none, false, 2⟩

/-- Two placement clicks carrying the same `Date.now()` timestamp. -/
def opsC9 : List Op :=
  [.placeClick 1000 1 ⟨100, 100⟩ 60, .placeClick 1000 1 ⟨200, 100⟩ 60]

/-- Claim C9, counterexample: `placeSignatureOnClick` takes the id from
`Date.now()`; two placements with the same timestamp leave two distinct
instances with equal ids in the store. -/
theorem placement_id_unique_counterexample :
    (run stC9 opsC9).placedSignatures.length = 2 ∧
    ((run stC9 opsC9).placedSignatures.getD 0 defaultSig).id =
      ((run stC9 opsC9).placedSignatures.getD 1 defaultSig).id ∧
    ¬ UniqueIds (run stC9 opsC9).placedSignatures := by
  have hl : (run stC9 opsC9).placedSignatures =
      [⟨1000, 1, ⟨70, 85⟩, 60, 30, 2⟩, ⟨1000, 1, ⟨170, 85⟩, 60, 30, 2⟩] := by
    norm_num [run, step, stC9, opsC9]
  refine ⟨by rw [hl]; rfl, by rw [hl]; rfl, ?_⟩
  rw [hl]
  intro h
  have := (List.pairwise_cons.mp h).1 ⟨1000, 1, ⟨170, 85⟩, 60, 30, 2⟩
    (List.mem_singleton.mpr rfl)
  exact this rfl

/-- Claim C9 (amended): placement preserves id-uniqueness of the store
whenever the placed id — the `Date.now()` timestamp — differs from every id
already present; under that freshness condition no two instances ever share
an id. -/
theorem placement_id_unique_amended (st : AppState) (ops : List Op)
    (huniq : UniqueIds st.placedSignatures)
    (hfresh : freshRun st ops = true) :
    UniqueIds (run st ops).placedSignatures := by
  induction ops generalizing st with
  | nil => exact huniq
  | cons op ops ih =>
    simp only [freshRun, Bool.and_eq_true] at hfresh
    exact ih (step st op) (step_unique st op huniq hfresh.1) hfresh.2

/-- Two placements with distinct timestamps. -/
def opsC9w : List Op :=
  [.placeClick 1000 1 ⟨100, 100⟩ 60, .placeClick 1001 1 ⟨200, 100⟩ 60]

theorem placement_id_unique_witness :
    (UniqueIds stC9.placedSignatures ∧ freshRun stC9 opsC9w = true) ∧
    UniqueIds (run stC9 opsC9w).placedSignatures :=
  ⟨⟨List.Pairwise.nil, by decide⟩,
    placement_id_unique_amended stC9 opsC9w List.Pairwise.nil (by decide)⟩

/-! ## Automatic background removal (part_000, _removeBackgroundAutomatically) -/

/-- Luminance scaled by 1000: the code computes `0.299r + 0.587g + 0.114b`
and only compares it against 128 and against other luminances; all those
comparisons are modelled exactly on the value scaled by 1000. -/
def luminance1000 (r g b : Nat) : Nat := 299 * r + 587 * g + 114 * b

/-- `Math.round(c / bucketSize) * bucketSize` with `bucketSize = 16`
(JavaScript rounds half up; for nonnegative `c` this is
`⌊(c + 8) / 16⌋ * 16`). -/
def bucket (c : Nat) : Nat := (c + 8) / 16 * 16

def colorKey (r g b : Nat) : Nat × Nat × Nat := (bucket r, bucket g, bucket b)

structure HistEntry where
  color : Nat × Nat × Nat
  count : Nat
  lum1000 : Nat
deriving DecidableEq

/-- `hist.set(key, entry)` on a JavaScript `Map` (which preserves insertion
order): an existing bucket's count is incremented in place; a new bucket is
appended carrying the first pixel's exact color and luminance. -/
def histInsert (h : List ((Nat × Nat × Nat) × HistEntry)) (r g b : Nat) :
    List ((Nat × Nat × Nat) × HistEntry) :=
  if (h.find? fun e => e.1 == colorKey r g b).isSome then
    h.map fun e =>
      if e.1 == colorKey r g b then (e.1, { e.2 with count := e.2.count + 1 }) else e
  else
    h ++ [(colorKey r g b, ⟨(r, g, b), 1, luminance1000 r g b⟩)]

/-- Step 1: histogram over the pixels with alpha at least 128
(`if (data[i + 3] < 128) continue`). -/
def buildHist (buf : PixelBuffer) : List ((Nat × Nat × Nat) × HistEntry) :=
  (List.range (buf.width * buf.height)).foldl
    (fun h i =>
      if buf.data.getD (4 * i + 3) 0 < 128 then h
      else
        histInsert h (buf.data.getD (4 * i) 0) (buf.data.getD (4 * i + 1) 0)
          (buf.data.getD (4 * i + 2) 0))
    []

structure DomPair where
  light : HistEntry
  dark : HistEntry
deriving DecidableEq

/-- `dominantLight` / `dominantDark` initial values. -/
def initialDomPair : DomPair :=
  ⟨⟨(255, 255, 255), 0, 255000⟩, ⟨(0, 0, 0), 0, 0⟩⟩

/-- Step 2: per luminance side of the midpoint (128), keep the
highest-count bucket. -/
def scanDominant (hist : List ((Nat × Nat × Nat) × HistEntry)) : DomPair :=
  hist.foldl
    (fun acc e =>
      if 128000 < e.2.lum1000 then
        if acc.light.count < e.2.count then { acc with light := e.2 } else acc
      else
        if acc.dark.count < e.2.count then { acc with dark := e.2 } else acc)
    initialDomPair

/-- `[...hist.values()].sort((a, b) => b.count - a.count)`: a stable sort by
descending count. -/
def sortedByCount (hist : List ((Nat × Nat × Nat) × HistEntry)) : List HistEntry :=
  (hist.map Prod.snd).mergeSort fun a b => decide (b.count ≤ a.count)

/-- The `|| { color: ..., count: 0, luminance: ... }` default of the
fallback's second entry (only reachable with a single-bucket histogram,
which the size guard already excludes). -/
def fallbackMissing (c1 : HistEntry) : HistEntry :=
  if 128000 < c1.lum1000 then ⟨(0, 0, 0), 0, 0⟩ else ⟨(255, 255, 255), 0, 255000⟩

/-- Dummy for `sortedColors[0]`; the call site guarantees the histogram is
non-empty, so it is never used. -/
def histDummy : HistEntry := ⟨(255, 255, 255), 0, 255000⟩

def fallbackFirst (hist : List ((Nat × Nat × Nat) × HistEntry)) : HistEntry :=
  (sortedByCount hist).getD 0 histDummy

def fallbackSecondEntry (hist : List ((Nat × Nat × Nat) × HistEntry)) : HistEntry :=
  match (sortedByCount hist)[1]? with
  | some e => e
  | none => fallbackMissing (fallbackFirst hist)

/-- The fallback of Step 2: the two most frequent buckets overall, the
lighter one as background (`color1.luminance > color2.luminance` picks the
order). -/
def fallbackPair (hist : List ((Nat × Nat × Nat) × HistEntry)) : DomPair :=
  if (fallbackSecondEntry hist).lum1000 < (fallbackFirst hist).lum1000 then
    ⟨fallbackFirst hist, fallbackSecondEntry hist⟩
  else
    ⟨fallbackSecondEntry hist, fallbackFirst hist⟩

structure ClassificationResult where
  background : Nat × Nat × Nat
  ink : Nat × Nat × Nat
deriving DecidableEq

def classifyPair (buf : PixelBuffer) : DomPair :=
  if (scanDominant (buildHist buf)).light.count = 0 ∨
      (scanDominant (buildHist buf)).dark.count = 0 then
    fallbackPair (buildHist buf)
  else scanDominant (buildHist buf)

/-- Steps 1-2 of part_000's `_removeBackgroundAutomatically` as the color
classifier: `none` on the two early-return paths (zero-sized image, fewer
than two histogram buckets), where the routine returns a cleared image and
never forms a background/ink pair. -/
def classify (buf : PixelBuffer) : Option ClassificationResult :=
  if buf.width = 0 ∨ buf.height = 0 then none
  else if (buildHist buf).length < 2 then none
  else some ⟨(classifyPair buf).light.color, (classifyPair buf).dark.color⟩

/-- A 1-by-1 pure white opaque buffer — a degenerate single-color input. -/
def bufWhite : PixelBuffer := ⟨1, 1, [255, 255, 255, 255]⟩

/-- Claim C5, counterexample: on a single-color image the histogram has one
bucket, so the routine takes the `hist.size < 2` early return and never
produces a background/ink pair — the classifier does not "always return
some pair". -/
theorem classifier_total_counterexample : classify bufWhite = none := by decide

/-- The statement verified for claim C5 (amended): with at least two
histogram buckets the classifier returns a pair, and whenever the
luminance-midpoint split leaves one side empty it returns the two most
frequent buckets with the lighter one as background and the darker as ink
(the second entry really being the second bucket of the count-sorted
histogram). -/
def ClassifySpec (buf : PixelBuffer) : Prop :=
  ∃ r, classify buf = some r ∧
    ((scanDominant (buildHist buf)).light.count = 0 ∨
        (scanDominant (buildHist buf)).dark.count = 0 →
      ∃ e1 e2 : HistEntry,
        ((e1 = fallbackFirst (buildHist buf) ∧ e2 = fallbackSecondEntry (buildHist buf)) ∨
         (e1 = fallbackSecondEntry (buildHist buf) ∧ e2 = fallbackFirst (buildHist buf))) ∧
        r = ⟨e1.color, e2.color⟩ ∧ e2.lum1000 ≤ e1.lum1000 ∧
        fallbackSecondEntry (buildHist buf) =
          (sortedByCount (buildHist buf)).getD 1 histDummy)

/-- Claim C5 (amended): the classifier yields a background/ink pair for
every buffer whose opaque-pixel histogram has at least two buckets; when a
luminance side is empty, the fallback assigns the lighter of the two most
frequent buckets as background and the darker as ink.  (For fewer than two
buckets — single-color or fully transparent input — the code returns a
cleared image without classifying, as the counterexample shows.) -/
theorem classifier_amended (buf : PixelBuffer)
    (h2 : 2 ≤ (buildHist buf).length) : ClassifySpec buf := by
  have hwh : ¬(buf.width = 0 ∨ buf.height = 0) := by
    intro h0
    have hz : buf.width * buf.height = 0 := by
      rcases h0 with h0 | h0 <;> simp [h0]
    have he : buildHist buf = [] := by
      unfold buildHist
      rw [hz]
      rfl
    rw [he] at h2
    simp at h2
  have hlen : ¬((buildHist buf).length < 2) := by omega
  have hcls : classify buf =
      some ⟨(classifyPair buf).light.color, (classifyPair buf).dark.color⟩ := by
    unfold classify
    rw [if_neg hwh, if_neg hlen]
  refine ⟨_, hcls, ?_⟩
  intro hcond
  have hp : classifyPair buf = fallbackPair (buildHist buf) := by
    unfold classifyPair
    rw [if_pos hcond]
  have hsortlen : 1 < (sortedByCount (buildHist buf)).length := by
    unfold sortedByCount
    rw [List.length_mergeSort, List.length_map]
    omega
  have hsecond : fallbackSecondEntry (buildHist buf) =
      (sortedByCount (buildHist buf)).getD 1 histDummy := by
    unfold fallbackSecondEntry
    rw [List.getElem?_eq_getElem hsortlen, getD_of_lt _ _ _ hsortlen]
  by_cases hlum : (fallbackSecondEntry (buildHist buf)).lum1000 <
      (fallbackFirst (buildHist buf)).lum1000
  · refine ⟨fallbackFirst (buildHist buf), fallbackSecondEntry (buildHist buf),
      Or.inl ⟨rfl, rfl⟩, ?_, le_of_lt hlum, hsecond⟩
    rw [hp]
    unfold fallbackPair
    rw [if_pos hlum]
  · refine ⟨fallbackSecondEntry (buildHist buf), fallbackFirst (buildHist buf),
      Or.inr ⟨rfl, rfl⟩, ?_, not_lt.mp hlum, hsecond⟩
    rw [hp]
    unfold fallbackPair
    rw [if_neg hlum]

/-- Two dark pixels in distinct buckets: the light luminance side is empty,
forcing the fallback. -/
def bufDark : PixelBuffer := ⟨2, 1, [0, 0, 0, 255, 100, 0, 0, 255]⟩

theorem classifier_amended_witness :
    2 ≤ (buildHist bufDark).length ∧ ClassifySpec bufDark :=
  ⟨by decide, classifier_amended bufDark (by decide)⟩

/-- Squared RGB distance.  The code computes `Math.sqrt` of this sum and
only compares the root against nonnegative thresholds or another root, so
every branch condition is modelled exactly on the squared values. -/
def colorDist2 (c1 c2 : Nat × Nat × Nat) : Int :=
  ((c1.1 : Int) - c2.1) ^ 2 + ((c1.2.1 : Int) - c2.2.1) ^ 2 +
    ((c1.2.2 : Int) - c2.2.2) ^ 2

structure SegPixel where
  r : Nat
  g : Nat
  b : Nat
  a : ℚ
deriving DecidableEq

/-- The `newAlpha` computation of Step 3: original alpha within the opaque
threshold (45), feathered between the opaque and transparent (90)
thresholds, 0 beyond.  (The feather interpolates over the floating-point
root; it is modelled with `Nat.sqrt`, a sub-unit difference that no claim
touches — the surrounding branch comparisons are exact.) -/
def segAlpha (signatureColor : Nat × Nat × Nat) (r g b a : Nat) : ℚ :=
  if colorDist2 (r, g, b) signatureColor ≤ 45 ^ 2 then (a : ℚ)
  else if colorDist2 (r, g, b) signatureColor < 90 ^ 2 then
    (a : ℚ) *
      (1 - (((Nat.sqrt (colorDist2 (r, g, b) signatureColor).toNat : ℚ) - 45) / (90 - 45)))
  else 0

/-- Step 3 of part_000's `_removeBackgroundAutomatically`, per pixel.
`newData` is zero-initialised; a pixel with `a < 25` is skipped; a pixel
strictly closer to the background than to the signature and within
`transparentThreshold * 1.5 = 135` of the background is cleared; otherwise
the pixel is written only when its new alpha exceeds 10. -/
def segPixel (signatureColor backgroundColor : Nat × Nat × Nat)
    (r g b a : Nat) : SegPixel :=
  if a < 25 then ⟨0, 0, 0, 0⟩
  else if colorDist2 (r, g, b) backgroundColor < colorDist2 (r, g, b) signatureColor ∧
      colorDist2 (r, g, b) backgroundColor < 135 ^ 2 then ⟨0, 0, 0, 0⟩
  else if 10 < segAlpha signatureColor r g b a then
    ⟨r, g, b, segAlpha signatureColor r g b a⟩
  else ⟨0, 0, 0, 0⟩

/-- The per-pixel loop over a whole buffer; pixels are independent and the
output lists the per-pixel RGBA results in pixel order. -/
def segmentData (signatureColor backgroundColor : Nat × Nat × Nat)
    (buf : PixelBuffer) : List SegPixel :=
  (List.range (buf.width * buf.height)).map fun i =>
    segPixel signatureColor backgroundColor
      (buf.data.getD (4 * i) 0) (buf.data.getD (4 * i + 1) 0)
      (buf.data.getD (4 * i + 2) 0) (buf.data.getD (4 * i + 3) 0)

/-- The complete `_removeBackgroundAutomatically`: a cleared buffer on the
early returns, otherwise segmentation against the classified pair. -/
def removeBackgroundAutomatically (buf : PixelBuffer) : List SegPixel :=
  match classify buf with
  | none => (List.range (buf.width * buf.height)).map fun _ => ⟨0, 0, 0, 0⟩
  | some c => segmentData c.ink c.background buf

/-- Claim C8, counterexample: a pixel within the opaque threshold of the ink
color (distance 8 ≤ 45) that is even closer to the background color is
cleared by the background test, so its RGB channels do not survive — the
claim's unconditional "ink-close pixels keep their RGB" fails. -/
theorem segmentation_ink_counterexample :
    colorDist2 (8, 0, 0) (0, 0, 0) ≤ 45 ^ 2 ∧
    (segPixel (0, 0, 0) (10, 0, 0) 8 0 0 255).r ≠ 8 ∧
    segPixel (0, 0, 0) (10, 0, 0) 8 0 0 255 = ⟨0, 0, 0, 0⟩ :=
  ⟨by decide, by decide, rfl⟩

/-- Claim C8 (amended): segmentation sends every already-transparent pixel
(alpha 0) to alpha 0, and every visible pixel (alpha ≥ 25) that is not
discarded by the background test and lies within the opaque threshold of
the ink color keeps its original RGB channels (and alpha). -/
theorem segmentation_amended (signatureColor backgroundColor : Nat × Nat × Nat)
    (buf : PixelBuffer) (i : Nat) (hi : i < buf.width * buf.height) :
    (buf.data.getD (4 * i + 3) 0 = 0 →
      (segmentData signatureColor backgroundColor buf).getD i ⟨0, 0, 0, 0⟩ =
        ⟨0, 0, 0, 0⟩) ∧
    (25 ≤ buf.data.getD (4 * i + 3) 0 →
      ¬(colorDist2 (buf.data.getD (4 * i) 0, buf.data.getD (4 * i + 1) 0,
            buf.data.getD (4 * i + 2) 0) backgroundColor <
          colorDist2 (buf.data.getD (4 * i) 0, buf.data.getD (4 * i + 1) 0,
            buf.data.getD (4 * i + 2) 0) signatureColor ∧
        colorDist2 (buf.data.getD (4 * i) 0, buf.data.getD (4 * i + 1) 0,
            buf.data.getD (4 * i + 2) 0) backgroundColor < 135 ^ 2) →
      colorDist2 (buf.data.getD (4 * i) 0, buf.data.getD (4 * i + 1) 0,
          buf.data.getD (4 * i + 2) 0) signatureColor ≤ 45 ^ 2 →
      (segmentData signatureColor backgroundColor buf).getD i ⟨0, 0, 0, 0⟩ =
        ⟨buf.data.getD (4 * i) 0, buf.data.getD (4 * i + 1) 0,
         buf.data.getD (4 * i + 2) 0, (buf.data.getD (4 * i + 3) 0 : ℚ)⟩) := by
  have hseg : (segmentData signatureColor backgroundColor buf).getD i ⟨0, 0, 0, 0⟩ =
      segPixel signatureColor backgroundColor
        (buf.data.getD (4 * i) 0) (buf.data.getD (4 * i + 1) 0)
        (buf.data.getD (4 * i + 2) 0) (buf.data.getD (4 * i + 3) 0) := by
    unfold segmentData
    rw [getD_of_lt _ _ _ (by simpa using hi)]
    simp only [List.getElem_map, List.getElem_range]
  rw [hseg]
  constructor
  · intro ha
    unfold segPixel
    rw [ha]
    rw [if_pos (by norm_num)]
  · intro ha hbg hsig
    unfold segPixel
    rw [if_neg (by omega), if_neg hbg]
    have halpha : segAlpha signatureColor (buf.data.getD (4 * i) 0)
        (buf.data.getD (4 * i + 1) 0) (buf.data.getD (4 * i + 2) 0)
        (buf.data.getD (4 * i + 3) 0) = (buf.data.getD (4 * i + 3) 0 : ℚ) := by
      unfold segAlpha
      rw [if_pos hsig]
    rw [halpha]
    have h25 : (25 : ℚ) ≤ (buf.data.getD (4 * i + 3) 0 : ℚ) := by exact_mod_cast ha
    rw [if_pos (lt_of_lt_of_le (by norm_num : (10 : ℚ) < 25) h25)]

/-- A 1-by-1 buffer with one visible near-ink pixel. -/
def bufInk : PixelBuffer := ⟨1, 1, [3, 0, 0, 200]⟩

theorem segmentation_amended_witness :
    (segmentData (0, 0, 0) (255, 255, 255) bufInk).getD 0 ⟨0, 0, 0, 0⟩ =
      ⟨3, 0, 0, ((200 : Nat) : ℚ)⟩ :=
  (segmentation_amended (0, 0, 0) (255, 255, 255) bufInk 0 (by decide)).2
    (by decide) (by decide) (by decide)
